import Mathlib

/-!
Verification development for the Items backend (a FastAPI + SQLAlchemy CRUD
service).  The storage layer (`src/crud.py`) is embedded shallowly: the
`items` table becomes a list of rows together with the autoincrement
counter, and each CRUD function becomes an explicit state-passing Lean
function.  Text columns are Lean `String`s; the `Float` columns `price`
and `quantity` are modelled as rationals, faithful for the comparisons
(`>=`, `<=`, `==`) the code performs on them (no float arithmetic occurs).
The `ILIKE` pattern matching used by `search` is modelled by a full SQL
`LIKE` matcher over case-folded character lists, so criteria containing
the wildcard characters `%`/`_` behave as in SQL.
-/

/-- A persisted row of the `items` table (`models.Items` in `src/models.py`):
`id` integer primary key (autoincrement), `name` and `description` strings,
`price` and `quantity` float columns (modelled as rationals). -/
structure Items where
  id : Int
  name : String
  description : String
  price : ℚ
  quantity : ℚ
deriving DecidableEq, Repr

namespace schemas

/-- Modelled from the spec: `schemas.Item` (file `schemas.py` is not in the
source tree).  Per the spec, request bodies carry a "full Item payload minus
id" (`{name: string, description: string, price: number, quantity: number}`,
"id present in responses, absent in request bodies"), so the payload type
has the four writable fields and no id; an id value appearing in the raw
JSON is dropped at parsing, hence `item.dict()` never contains `id`. -/
structure Item where
  name : String
  description : String
  price : ℚ
  quantity : ℚ
deriving DecidableEq, Repr

end schemas

/-- The database state: the rows of the `items` table in insertion order,
plus the autoincrement counter supplying the next generated primary key. -/
structure DB where
  rows : List Items
  nextId : Int
deriving DecidableEq, Repr

/-- Case-fold a character list (ASCII case folding, as `ILIKE` compares
case-insensitively by lower-casing both sides). -/
def lowerChars (l : List Char) : List Char := l.map Char.toLower

/-- SQL `LIKE` pattern matching over character lists: `%` matches any
(possibly empty) character sequence, `_` matches exactly one character, any
other pattern character matches itself. -/
def likeMatch : List Char → List Char → Bool
  | [], t => t.isEmpty
  | p :: ps, t =>
    if p == '%' then t.tails.any (fun suf => likeMatch ps suf)
    else match t with
      | [] => false
      | c :: ts => (if p == '_' then true else p == c) && likeMatch ps ts

/-- A character list free of the SQL `LIKE` wildcards `%` and `_`. -/
def wildcardFree (l : List Char) : Bool :=
  l.all (fun c => !(c == '%') && !(c == '_'))

/-- SQL `column ILIKE '%pat%'` as `search` issues it: the interpolated
pattern `'%' ++ pat ++ '%'` is matched case-insensitively against `s`,
wildcards inside `pat` keeping their SQL meaning. -/
def ilikeContains (pat s : String) : Bool :=
  likeMatch ('%' :: (lowerChars pat.toList ++ ['%'])) (lowerChars s.toList)

/-- Overwrite the four writable columns of a row with the payload's values,
as `query.update(item.dict())` does (the dict has exactly these keys). -/
def applyPayload (item : schemas.Item) (r : Items) : Items :=
  { r with name := item.name, description := item.description,
           price := item.price, quantity := item.quantity }

namespace crud

/-- `crud.create`: build `models.Items(**item.dict())` with the generated
primary key, insert it, and return it (with the new state). -/
def create (db : DB) (item : schemas.Item) : Items × DB :=
  let db_item : Items :=
    { id := db.nextId, name := item.name, description := item.description,
      price := item.price, quantity := item.quantity }
  (db_item, { rows := db.rows ++ [db_item], nextId := db.nextId + 1 })

/-- `crud.retrieve`: `db.query(Items).filter(Items.id == item_id).first()` —
the first row whose id matches, if any. -/
def retrieve (item_id : Int) (db : DB) : Option Items :=
  (db.rows.filter (fun r => r.id == item_id)).head?

/-- `crud.retrieve_all`: `db.query(Items).all()` — every row, storage
order. -/
def retrieve_all (db : DB) : List Items := db.rows

/-- `crud.update`: if no row with `item_id` exists return `none` with the
state untouched; otherwise apply `UPDATE ... SET <item.dict()> WHERE id =
item_id` and return the refreshed row. -/
def update (item_id : Int) (item : schemas.Item) (db : DB) :
    Option Items × DB :=
  match retrieve item_id db with
  | none => (none, db)
  | some _ =>
    let rows := db.rows.map
      (fun r => if r.id == item_id then applyPayload item r else r)
    let db' : DB := { db with rows := rows }
    (retrieve item_id db', db')

/-- `crud.delete`: if no row with `item_id` exists return `false` with the
state untouched; otherwise delete the row (by primary key) and return
`true`. -/
def delete (item_id : Int) (db : DB) : Bool × DB :=
  match retrieve item_id db with
  | none => (false, db)
  | some _ =>
    (true, { db with rows := db.rows.filter (fun r => !(r.id == item_id)) })

/-- `crud.search`: successively narrow the query by each criterion.  The
string criteria are guarded by Python truthiness (`if name:` — skipped when
absent or the empty string); the numeric criteria are guarded by
`is not None`. -/
def search (db : DB) (name description : Option String)
    (min_price max_price : Option ℚ) (quantity : Option Int) : List Items :=
  let query := db.rows
  let query := match name with
    | some n => if n.isEmpty then query
                else query.filter (fun r => ilikeContains n r.name)
    | none => query
  let query := match description with
    | some d => if d.isEmpty then query
                else query.filter (fun r => ilikeContains d r.description)
    | none => query
  let query := match min_price with
    | some m => query.filter (fun r => decide (m ≤ r.price))
    | none => query
  let query := match max_price with
    | some m => query.filter (fun r => decide (r.price ≤ m))
    | none => query
  let query := match quantity with
    | some q => query.filter (fun r => r.quantity == (q : ℚ))
    | none => query
  query

end crud

/-- An HTTP outcome at a route: a successful body, or an
`HTTPException(status_code, detail)`. -/
inductive Response (α : Type) where
  | ok : α → Response α
  | httpError : Nat → String → Response α
deriving DecidableEq, Repr

namespace main

/-- The `PUT /items/{item_id}` route handler in `src/main.py`: call
`crud.update`; on `none`, raise 404 with the templated message naming the
id; otherwise return the updated item. -/
def update (item_id : Int) (item : schemas.Item) (db : DB) :
    Response Items × DB :=
  let res := crud.update item_id item db
  match res.1 with
  | none =>
    (Response.httpError 404
      ("Item with id " ++ toString item_id ++ " not found."), res.2)
  | some it => (Response.ok it, res.2)

end main

/-- The constraint a (possibly absent) string criterion imposes on a text
column under the code's truthiness guard: absent or the empty string
imposes nothing; a non-empty criterion requires an `ILIKE '%c%'` match. -/
def textOk (c : Option String) (s : String) : Bool :=
  match c with
  | none => true
  | some n => if n.isEmpty then true else ilikeContains n s

/-- The constraint a (possibly absent) minimum-price criterion imposes. -/
def minOk (c : Option ℚ) (x : ℚ) : Bool :=
  match c with
  | none => true
  | some m => decide (m ≤ x)

/-- The constraint a (possibly absent) maximum-price criterion imposes. -/
def maxOk (c : Option ℚ) (x : ℚ) : Bool :=
  match c with
  | none => true
  | some m => decide (x ≤ m)

/-- The constraint a (possibly absent) quantity criterion imposes. -/
def qtyOk (c : Option Int) (x : ℚ) : Bool :=
  match c with
  | none => true
  | some q => x == (q : ℚ)

/-- Search as the spec words it ("apply a predicate to the query only when
present, never defaulting to a sentinel like zero or empty string"): each
criterion's predicate is applied exactly when the criterion is supplied,
with no truthiness guard on the string criteria. -/
def searchSpec (db : DB) (name description : Option String)
    (min_price max_price : Option ℚ) (quantity : Option Int) : List Items :=
  let query := db.rows
  let query := match name with
    | some n => query.filter (fun r => ilikeContains n r.name)
    | none => query
  let query := match description with
    | some d => query.filter (fun r => ilikeContains d r.description)
    | none => query
  let query := match min_price with
    | some m => query.filter (fun r => decide (m ≤ r.price))
    | none => query
  let query := match max_price with
    | some m => query.filter (fun r => decide (r.price ≤ m))
    | none => query
  let query := match quantity with
    | some q => query.filter (fun r => r.quantity == (q : ℚ))
    | none => query
  query

/-- Concrete three-row table used by the witnesses. -/
def db0 : DB :=
  { rows := [{ id := 1, name := "Bolt", description := "steel",
               price := 3, quantity := 100 },
             { id := 2, name := "Widget", description := "plastic",
               price := 10, quantity := 5 },
             { id := 3, name := "BigWidget", description := "metal",
               price := 20, quantity := 5 }],
    nextId := 4 }

/-- Concrete update/create payload used by the witnesses. -/
def p0 : schemas.Item :=
  { name := "Nut", description := "brass", price := 2, quantity := 90 }

/-- The record expected after updating id 1 of `db0` with `p0`. -/
def u0 : Items :=
  { id := 1, name := "Nut", description := "brass", price := 2,
    quantity := 90 }

/-- The first row of `db0`. -/
def itemBolt : Items :=
  { id := 1, name := "Bolt", description := "steel", price := 3,
    quantity := 100 }

/-- The second row of `db0`. -/
def itemWidget : Items :=
  { id := 2, name := "Widget", description := "plastic", price := 10,
    quantity := 5 }

theorem likeMatch_pct_iff (ps t : List Char) :
    likeMatch ('%' :: ps) t = true ↔
      ∃ t1 t2, t = t1 ++ t2 ∧ likeMatch ps t2 = true := by
  rw [likeMatch.eq_def]
  dsimp only
  rw [if_pos (by decide)]
  rw [List.any_eq_true]
  constructor
  · rintro ⟨suf, hmem, hm⟩
    obtain ⟨t1, rfl⟩ := (List.mem_tails suf t).mp hmem
    exact ⟨t1, suf, rfl, hm⟩
  · rintro ⟨t1, t2, rfl, hm⟩
    exact ⟨t2, (List.mem_tails t2 (t1 ++ t2)).mpr ⟨t1, rfl⟩, hm⟩

theorem likeMatch_pct (t : List Char) : likeMatch ['%'] t = true := by
  rw [likeMatch_pct_iff]
  exact ⟨t, [], by simp, rfl⟩

theorem likeMatch_lit_pct (p : List Char) (hw : wildcardFree p = true) :
    ∀ t, (likeMatch (p ++ ['%']) t = true ↔ ∃ t2, t = p ++ t2) := by
  induction p with
  | nil =>
    intro t
    simp [likeMatch_pct]
  | cons a ps ih =>
    have hw' : wildcardFree ps = true := by
      simp [wildcardFree] at hw ⊢
      exact fun c hc => hw.2 c hc
    have ha1 : ¬(a == '%') = true := by
      simp only [wildcardFree, List.all_cons, Bool.and_eq_true] at hw
      simp only [Bool.not_eq_true', beq_eq_false_iff_ne] at hw
      simp [hw.1.1]
    have ha2 : ¬(a == '_') = true := by
      simp only [wildcardFree, List.all_cons, Bool.and_eq_true] at hw
      simp only [Bool.not_eq_true', beq_eq_false_iff_ne] at hw
      simp [hw.1.2]
    intro t
    rw [List.cons_append, likeMatch.eq_def]
    dsimp only
    rw [if_neg ha1]
    cases t with
    | nil =>
      constructor
      · intro h
        exact absurd h (by simp)
      · rintro ⟨t2, he⟩
        exact absurd he (by simp)
    | cons c ts =>
      dsimp only
      rw [if_neg ha2]
      simp only [Bool.and_eq_true, beq_iff_eq]
      rw [ih hw' ts]
      constructor
      · rintro ⟨rfl, t2, rfl⟩
        exact ⟨t2, rfl⟩
      · rintro ⟨t2, he⟩
        rw [List.cons_append] at he
        cases he
        exact ⟨rfl, t2, rfl⟩

theorem ilikeContains_iff (pat s : String)
    (hw : wildcardFree (lowerChars pat.toList) = true) :
    ilikeContains pat s = true ↔
      ∃ l1 l2, lowerChars s.toList = l1 ++ lowerChars pat.toList ++ l2 := by
  unfold ilikeContains
  rw [likeMatch_pct_iff]
  constructor
  · rintro ⟨t1, t2, he, hm⟩
    obtain ⟨t3, rfl⟩ := (likeMatch_lit_pct _ hw t2).mp hm
    exact ⟨t1, t3, by rw [he]; simp [List.append_assoc]⟩
  · rintro ⟨l1, l2, he⟩
    exact ⟨l1, lowerChars pat.toList ++ l2,
      by rw [he]; simp [List.append_assoc],
      (likeMatch_lit_pct _ hw (lowerChars pat.toList ++ l2)).mpr ⟨l2, rfl⟩⟩

theorem ilikeContains_empty (s : String) : ilikeContains "" s = true := by
  unfold ilikeContains
  rw [likeMatch_pct_iff]
  exact ⟨lowerChars s.toList, [], by simp, rfl⟩

theorem retrieve_id {i : Int} {db : DB} {r : Items}
    (h : crud.retrieve i db = some r) : r.id = i := by
  unfold crud.retrieve at h
  rw [List.head?_eq_some_iff] at h
  obtain ⟨ys, hys⟩ := h
  have hr : r ∈ db.rows.filter (fun r => r.id == i) := by
    rw [hys]
    exact List.mem_cons_self _ _
  rw [List.mem_filter] at hr
  exact eq_of_beq hr.2

theorem retrieve_eq_find? (i : Int) (db : DB) :
    crud.retrieve i db = db.rows.find? (fun r => r.id == i) := by
  unfold crud.retrieve
  exact List.filter_head? _ _

theorem mem_search (db : DB) (n d : Option String) (lo hi : Option ℚ)
    (q : Option Int) (r : Items) :
    r ∈ crud.search db n d lo hi q ↔
      r ∈ db.rows ∧ textOk n r.name = true ∧ textOk d r.description = true ∧
        minOk lo r.price = true ∧ maxOk hi r.price = true ∧
        qtyOk q r.quantity = true := by
  unfold crud.search
  cases n <;> cases d <;> cases lo <;> cases hi <;> cases q <;>
    simp only [textOk, minOk, maxOk, qtyOk] <;>
    (try split_ifs) <;>
    simp_all [List.mem_filter] <;>
    tauto

theorem textOk_some_iff (s x : String)
    (hw : wildcardFree (lowerChars s.toList) = true) :
    textOk (some s) x = true ↔
      ∃ l1 l2, lowerChars x.toList = l1 ++ lowerChars s.toList ++ l2 := by
  unfold textOk
  dsimp only
  by_cases h : s.isEmpty = true
  · have hs : s = "" := (String.isEmpty_iff s).mp h
    subst hs
    rw [if_pos h]
    constructor
    · exact fun _ => ⟨[], lowerChars x.toList, by simp [lowerChars]⟩
    · exact fun _ => rfl
  · rw [if_neg h]
    exact ilikeContains_iff s x hw

theorem filter_ilike_empty_name (l : List Items) :
    l.filter (fun r => ilikeContains "" r.name) = l :=
  List.filter_eq_self.mpr (fun _ _ => ilikeContains_empty _)

theorem filter_ilike_empty_desc (l : List Items) :
    l.filter (fun r => ilikeContains "" r.description) = l :=
  List.filter_eq_self.mpr (fun _ _ => ilikeContains_empty _)

theorem search_eq_searchSpec (db : DB) (n d : Option String)
    (lo hi : Option ℚ) (q : Option Int) :
    crud.search db n d lo hi q = searchSpec db n d lo hi q := by
  unfold crud.search searchSpec
  cases n <;> cases d
  case none.none => rfl
  case none.some d' =>
    dsimp only
    rcases eq_or_ne d' "" with rfl | hd
    · have he : ("".isEmpty = true) := by decide
      simp only [if_pos he, filter_ilike_empty_desc]
    · have hne : ¬ (d'.isEmpty = true) := by
        simpa [String.isEmpty_iff] using hd
      simp only [if_neg hne]
  case some.none s =>
    dsimp only
    rcases eq_or_ne s "" with rfl | hn
    · have he : ("".isEmpty = true) := by decide
      simp only [if_pos he, filter_ilike_empty_name]
    · have hne : ¬ (s.isEmpty = true) := by
        simpa [String.isEmpty_iff] using hn
      simp only [if_neg hne]
  case some.some s d' =>
    dsimp only
    rcases eq_or_ne s "" with rfl | hn
    · rcases eq_or_ne d' "" with rfl | hd
      · have he : ("".isEmpty = true) := by decide
        simp only [if_pos he, filter_ilike_empty_name, filter_ilike_empty_desc]
      · have he : ("".isEmpty = true) := by decide
        have hne : ¬ (d'.isEmpty = true) := by
          simpa [String.isEmpty_iff] using hd
        simp only [if_pos he, if_neg hne, filter_ilike_empty_name]
    · rcases eq_or_ne d' "" with rfl | hd
      · have he : ("".isEmpty = true) := by decide
        have hne : ¬ (s.isEmpty = true) := by
          simpa [String.isEmpty_iff] using hn
        simp only [if_pos he, if_neg hne, filter_ilike_empty_desc]
      · have hne1 : ¬ (s.isEmpty = true) := by
          simpa [String.isEmpty_iff] using hn
        have hne2 : ¬ (d'.isEmpty = true) := by
          simpa [String.isEmpty_iff] using hd
        simp only [if_neg hne1, if_neg hne2]

theorem find?_map_update (rows : List Items) (i : Int) (p : schemas.Item) :
    (rows.map (fun r => if r.id == i then applyPayload p r else r)).find?
        (fun r => r.id == i) =
      (rows.find? (fun r => r.id == i)).map (applyPayload p) := by
  induction rows with
  | nil => rfl
  | cons a tl ih =>
    by_cases ha : a.id = i
    · simp [List.find?_cons, ha, applyPayload]
    · simp_all [List.find?_cons, applyPayload, -List.find?_map]

theorem map_id_update (rows : List Items) (i : Int) (p : schemas.Item) :
    (rows.map (fun r => if r.id == i then applyPayload p r else r)).map
        Items.id = rows.map Items.id := by
  rw [List.map_map]
  refine List.map_congr_left (fun r _ => ?_)
  by_cases hr : r.id = i
  · simp [hr, applyPayload]
  · simp [hr]

theorem filter_ne_update (rows : List Items) (i : Int) (p : schemas.Item) :
    (rows.map (fun r => if r.id == i then applyPayload p r else r)).filter
        (fun r => !(r.id == i)) =
      rows.filter (fun r => !(r.id == i)) := by
  induction rows with
  | nil => rfl
  | cons a tl ih =>
    by_cases ha : a.id = i
    · simp_all [List.filter_cons, applyPayload]
    · simp_all [List.filter_cons, applyPayload]

theorem filter_eq_of_filter_ne (rows : List Items) (i : Int) :
    (rows.filter (fun r => !(r.id == i))).filter (fun r => r.id == i) = [] := by
  rw [List.filter_filter]
  refine List.filter_eq_nil_iff.mpr (fun a _ => ?_)
  simp

/-- Claim C1: update never alters the id of the targeted record (the
payload, which per the spec carries no id field, cannot change any row's
id): the table's id column is untouched, and the returned record carries
the lookup id. -/
theorem update_never_alters_id (db : DB) (i : Int) (p : schemas.Item) :
    ((crud.update i p db).2).rows.map Items.id = db.rows.map Items.id ∧
      ∀ r, (crud.update i p db).1 = some r → r.id = i := by
  unfold crud.update
  cases h : crud.retrieve i db with
  | none => exact ⟨rfl, fun r hr => by simp at hr⟩
  | some r0 =>
    dsimp only
    constructor
    · exact map_id_update db.rows i p
    · exact fun r hr => retrieve_id hr

theorem update_never_alters_id_witness :
    ((crud.update 1 p0 db0).2).rows.map Items.id = db0.rows.map Items.id ∧
      u0.id = 1 :=
  ⟨(update_never_alters_id db0 1 p0).1,
   (update_never_alters_id db0 1 p0).2 u0 (by decide)⟩

/-- Claim C2: on an existing id, update overwrites all four writable fields
with the payload's values (full replace, no partial-field merge) and
returns the refreshed record. -/
theorem update_overwrites_all_fields (db : DB) (i : Int) (p : schemas.Item)
    (r0 : Items) (h : crud.retrieve i db = some r0) :
    (crud.update i p db).1 =
        some { id := i, name := p.name, description := p.description,
               price := p.price, quantity := p.quantity } ∧
      crud.retrieve i (crud.update i p db).2 = (crud.update i p db).1 := by
  unfold crud.update
  rw [h]
  dsimp only
  refine ⟨?_, rfl⟩
  rw [retrieve_eq_find?]
  dsimp only
  rw [find?_map_update, ← retrieve_eq_find?, h]
  have hid : r0.id = i := retrieve_id h
  simp [applyPayload, hid]

theorem update_overwrites_all_fields_witness :
    (crud.update 1 p0 db0).1 = some u0 ∧
      crud.retrieve 1 (crud.update 1 p0 db0).2 = (crud.update 1 p0 db0).1 :=
  update_overwrites_all_fields db0 1 p0 itemBolt (by decide)

/-- Claim C3: updating an absent id returns `none` and leaves the state
entirely unchanged, and the PUT route turns that into a 404 carrying the
templated message naming the id. -/
theorem update_absent_is_404 (db : DB) (i : Int) (p : schemas.Item)
    (h : crud.retrieve i db = none) :
    crud.update i p db = (none, db) ∧
      main.update i p db =
        (Response.httpError 404
          ("Item with id " ++ toString i ++ " not found."), db) := by
  have h1 : crud.update i p db = (none, db) := by
    unfold crud.update
    rw [h]
  refine ⟨h1, ?_⟩
  unfold main.update
  rw [h1]

theorem update_absent_is_404_witness :
    crud.update 99 p0 db0 = (none, db0) ∧
      main.update 99 p0 db0 =
        (Response.httpError 404
          ("Item with id " ++ toString (99 : Int) ++ " not found."), db0) :=
  update_absent_is_404 db0 99 p0 (by decide)

/-- Claim C4: deleting an absent id returns false and mutates nothing (a
repeat delete also returns false there); deleting a present id returns
true, after which retrieving the id yields `none` and a second delete
returns false. -/
theorem delete_spec (db : DB) (i : Int) :
    (crud.retrieve i db = none →
        crud.delete i db = (false, db) ∧
          (crud.delete i (crud.delete i db).2).1 = false) ∧
      ∀ r, crud.retrieve i db = some r →
        (crud.delete i db).1 = true ∧
          crud.retrieve i (crud.delete i db).2 = none ∧
          (crud.delete i (crud.delete i db).2).1 = false := by
  constructor
  · intro h
    have h1 : crud.delete i db = (false, db) := by
      unfold crud.delete
      rw [h]
    refine ⟨h1, ?_⟩
    rw [h1, h1]
  · intro r h
    have hret : crud.retrieve i
        { db with rows := db.rows.filter (fun r => !(r.id == i)) } = none := by
      unfold crud.retrieve
      dsimp only
      rw [filter_eq_of_filter_ne]
      rfl
    have h1 : crud.delete i db =
        (true, { db with rows := db.rows.filter (fun r => !(r.id == i)) }) := by
      unfold crud.delete
      rw [h]
    refine ⟨by rw [h1], by rw [h1]; exact hret, ?_⟩
    rw [h1]
    unfold crud.delete
    rw [hret]

theorem delete_spec_witness :
    ((crud.delete 1 db0).1 = true ∧
        crud.retrieve 1 (crud.delete 1 db0).2 = none ∧
        (crud.delete 1 (crud.delete 1 db0).2).1 = false) ∧
      crud.delete 99 db0 = (false, db0) ∧
      (crud.delete 99 (crud.delete 99 db0).2).1 = false :=
  ⟨(delete_spec db0 1).2 itemBolt (by decide),
   ((delete_spec db0 99).1 (by decide)).1,
   ((delete_spec db0 99).1 (by decide)).2⟩

/-- Claim C5: when every stored id is below the autoincrement counter (the
invariant the generated primary key maintains), create inserts a record
carrying all payload fields plus the generated id, and retrieving that id
returns exactly the created record. -/
theorem create_then_retrieve (db : DB) (p : schemas.Item)
    (h : ∀ r ∈ db.rows, r.id < db.nextId) :
    crud.retrieve (crud.create db p).1.id (crud.create db p).2 =
        some (crud.create db p).1 ∧
      (crud.create db p).1.id = db.nextId ∧
      (crud.create db p).1.name = p.name ∧
      (crud.create db p).1.description = p.description ∧
      (crud.create db p).1.price = p.price ∧
      (crud.create db p).1.quantity = p.quantity := by
  unfold crud.create crud.retrieve
  dsimp only
  refine ⟨?_, rfl, rfl, rfl, rfl, rfl⟩
  rw [List.filter_append]
  have hnil : db.rows.filter (fun r => r.id == db.nextId) = [] :=
    List.filter_eq_nil_iff.mpr (fun a ha => by
      have := h a ha
      simp
      omega)
  rw [hnil]
  simp

theorem create_then_retrieve_witness :
    crud.retrieve (crud.create db0 p0).1.id (crud.create db0 p0).2 =
        some (crud.create db0 p0).1 ∧
      (crud.create db0 p0).1.id = db0.nextId ∧
      (crud.create db0 p0).1.name = p0.name ∧
      (crud.create db0 p0).1.description = p0.description ∧
      (crud.create db0 p0).1.price = p0.price ∧
      (crud.create db0 p0).1.quantity = p0.quantity :=
  create_then_retrieve db0 p0 (by decide)

/-- Claim C6: the supplied price bounds are inclusive: among the records
meeting the other supplied criteria, search keeps exactly those whose
price lies in the closed interval from `a` to `b`. -/
theorem search_price_bounds_inclusive (db : DB) (n d : Option String)
    (q : Option Int) (a b : ℚ) (r : Items) :
    r ∈ crud.search db n d (some a) (some b) q ↔
      r ∈ crud.search db n d none none q ∧ a ≤ r.price ∧ r.price ≤ b := by
  rw [mem_search, mem_search]
  simp only [minOk, maxOk, decide_eq_true_eq]
  tauto

/-- Claim C7 (amended): a supplied name or description criterion whose
case-folded text is free of the SQL `LIKE` wildcards `%` and `_` matches
exactly the records whose corresponding field contains it case-insensitively
as a contiguous substring (contains semantics, not anchored).  A criterion
containing a wildcard is instead interpreted as a `LIKE` pattern by the
`ILIKE` query the code issues. -/
theorem search_text_is_ci_substring (db : DB) (s : String) (r : Items)
    (hw : wildcardFree (lowerChars s.toList) = true) :
    (r ∈ crud.search db (some s) none none none none ↔
        r ∈ db.rows ∧
          ∃ l1 l2, lowerChars r.name.toList =
            l1 ++ lowerChars s.toList ++ l2) ∧
      (r ∈ crud.search db none (some s) none none none ↔
        r ∈ db.rows ∧
          ∃ l1 l2, lowerChars r.description.toList =
            l1 ++ lowerChars s.toList ++ l2) := by
  constructor
  · rw [mem_search, textOk_some_iff _ _ hw]
    simp [textOk, minOk, maxOk, qtyOk]
  · rw [mem_search, textOk_some_iff _ _ hw]
    simp [textOk, minOk, maxOk, qtyOk]

theorem search_text_is_ci_substring_witness :
    wildcardFree (lowerChars "wid".toList) = true ∧
      ((itemWidget ∈ crud.search db0 (some "wid") none none none none ↔
          itemWidget ∈ db0.rows ∧
            ∃ l1 l2, lowerChars itemWidget.name.toList =
              l1 ++ lowerChars "wid".toList ++ l2) ∧
        (itemWidget ∈ crud.search db0 none (some "wid") none none none ↔
          itemWidget ∈ db0.rows ∧
            ∃ l1 l2, lowerChars itemWidget.description.toList =
              l1 ++ lowerChars "wid".toList ++ l2)) :=
  ⟨by decide, search_text_is_ci_substring db0 "wid" itemWidget (by decide)⟩

theorem search_text_substring_counterexample :
    ¬(itemBolt ∈ crud.search db0 (some "%") none none none none ↔
        itemBolt ∈ db0.rows ∧
          ∃ l1 l2, lowerChars itemBolt.name.toList =
            l1 ++ lowerChars "%".toList ++ l2) := by
  intro hiff
  have h1 : itemBolt ∈ crud.search db0 (some "%") none none none none := by
    decide
  obtain ⟨-, l1, l2, he⟩ := hiff.mp h1
  have hmem : '%' ∈ lowerChars itemBolt.name.toList := by
    rw [he]
    have hp : '%' ∈ lowerChars "%".toList := by decide
    exact List.mem_append.mpr (Or.inl (List.mem_append.mpr (Or.inr hp)))
  revert hmem
  decide

/-- Claim C8: search with no criteria returns the whole table, the same
list as `retrieve_all`, and in general search returns exactly the records
satisfying the conjunction of the supplied criteria, absent criteria
imposing no constraint. -/
theorem search_no_criteria_and_conjunction (db : DB) (n d : Option String)
    (lo hi : Option ℚ) (q : Option Int) (r : Items) :
    crud.search db none none none none none = crud.retrieve_all db ∧
      (r ∈ crud.search db n d lo hi q ↔
        r ∈ crud.retrieve_all db ∧ textOk n r.name = true ∧
          textOk d r.description = true ∧ minOk lo r.price = true ∧
          maxOk hi r.price = true ∧ qtyOk q r.quantity = true) :=
  ⟨rfl, mem_search db n d lo hi q r⟩

/-- Claim C9: extensionally, each filter is applied to the query exactly
when its criterion is supplied: the code's search coincides, as a list and
for every input — including a supplied empty string or zero — with the
reference `searchSpec` that applies every supplied criterion's predicate
with no sentinel defaulting.  (The code's truthiness guard skips the
`ILIKE` filter for an empty string, but that filter is vacuously true, so
the two agree.) -/
theorem search_applies_exactly_supplied_filters (db : DB)
    (n d : Option String) (lo hi : Option ℚ) (q : Option Int) :
    crud.search db n d lo hi q = searchSpec db n d lo hi q :=
  search_eq_searchSpec db n d lo hi q

/-- Claim C10: mutating operations touch at most the targeted record:
update and delete leave the rows with a different id unchanged, and create
only appends its new record to the table. -/
theorem mutators_touch_only_target (db : DB) (i : Int) (p : schemas.Item) :
    ((crud.update i p db).2).rows.filter (fun r => !(r.id == i)) =
        db.rows.filter (fun r => !(r.id == i)) ∧
      ((crud.delete i db).2).rows.filter (fun r => !(r.id == i)) =
        db.rows.filter (fun r => !(r.id == i)) ∧
      (crud.create db p).2.rows = db.rows ++ [(crud.create db p).1] := by
  refine ⟨?_, ?_, rfl⟩
  · unfold crud.update
    cases h : crud.retrieve i db with
    | none => rfl
    | some r0 =>
      dsimp only
      exact filter_ne_update db.rows i p
  · unfold crud.delete
    cases h : crud.retrieve i db with
    | none => rfl
    | some r0 =>
      dsimp only
      simp [List.filter_filter]
